import Mathlib

/-!
# pkgrank: the import graph, its construction and its ranking

A shallow embedding of `pkg/graph.go` and `cmd/root.go`.

* Go maps are association lists with unique keys (`mapGet`, `mapSet`).
* `int64` node ids and the `int` flag are integers; the 64-bit bound is not
  modelled (a graph would need 2^63 nodes to meet it).
* Edge weights are the `float64` values 1.0, 2.0, ...; they are embedded as
  natural numbers (float64 addition of 1.0 is exact on integers below 2^53).
* Centrality scores are `float64` values compared with `>`; they are embedded
  in an arbitrary linear order (NaN is not modelled).
* A Go panic is the `error` case of `Except Panic`. A panic in a worker
  goroutine of `BuildGraph` kills the process; the graph it leaves behind is
  kept (`BuildOutcome.crashed`), since the caller can still see it returned.
* The commands run through `os/exec` (`go list`) are the fields of
  `ImportSource`; `network.PageRank` is a function parameter.
* The goroutines of `BuildGraph` merge under one mutex, so a run is a
  serialisation of the per-package merges; the embedding merges in list order.
-/

namespace PkgRank

deriving instance DecidableEq for Except

/-! ## Go maps -/

/-- Map read `m[k]` with the comma-ok form: the value stored under `k`, if any. -/
def mapGet {κ ν : Type} [DecidableEq κ] : List (κ × ν) → κ → Option ν
  | [], _ => none
  | (k', v) :: rest, k => if k' = k then some v else mapGet rest k

/-- Map write `m[k] = v`: replaces the value stored under `k`, or adds the key. -/
def mapSet {κ ν : Type} [DecidableEq κ] : List (κ × ν) → κ → ν → List (κ × ν)
  | [], k, v => [(k, v)]
  | (k', v') :: rest, k, v =>
    if k' = k then (k, v) :: rest else (k', v') :: mapSet rest k v

/-! ## Panics -/

/-- The run-time panics the embedded code can raise. -/
inductive Panic where
  /-- The panic of gonum `SetWeightedEdge`: "simple: adding self edge". -/
  | selfEdge
  /-- The panic of gonum `AddNode`: "simple: node ID collision". -/
  | idCollision
  /-- A method call on a nil `graph.Node`. -/
  | nilNode
  /-- An index out of range of a slice. -/
  | indexOutOfRange
  deriving DecidableEq, Repr

/-! ## gonum `simple.WeightedDirectedGraph`, as documented upstream -/

/-- The gonum `simple.WeightedEdge`: endpoints `F`, `T` (node ids) and weight `W`. -/
structure WeightedEdge where
  F : Int
  T : Int
  W : Nat
  deriving DecidableEq, Repr

/-- The gonum `simple.WeightedDirectedGraph`: the ids of its node map, its
edge map `from[u][v]` (the map `to` mirrors it) and the largest id used so far
(`nodeIDs`, no id is ever released here). -/
structure WeightedDirectedGraph where
  nodes : List Int
  edges : List ((Int × Int) × Nat)
  maxID : Int
  deriving DecidableEq, Repr

/-- The constructor `simple.NewWeightedDirectedGraph(0, 0)`: no node, no edge. -/
def NewWeightedDirectedGraph : WeightedDirectedGraph :=
  { nodes := [], edges := [], maxID := -1 }

namespace WeightedDirectedGraph

/-- The method `Node(id)`: the node with that id, nil when there is none. -/
def Node (g : WeightedDirectedGraph) (id : Int) : Option Int :=
  if id ∈ g.nodes then some id else none

/-- The method `NewNode()`: id 0 in an empty graph, else one past the largest id used. -/
def NewNode (g : WeightedDirectedGraph) : Int :=
  if g.nodes.length = 0 then 0 else g.maxID + 1

/-- The method `AddNode(n)`: adds the node, panics when its id is already present. -/
def AddNode (g : WeightedDirectedGraph) (n : Int) : Except Panic WeightedDirectedGraph :=
  if n ∈ g.nodes then .error .idCollision
  else .ok { g with nodes := g.nodes ++ [n], maxID := max g.maxID n }

/-- The method `WeightedEdge(uid, vid)`: the stored edge, nil when there is none. -/
def WeightedEdge (g : WeightedDirectedGraph) (uid vid : Int) : Option PkgRank.WeightedEdge :=
  match mapGet g.edges (uid, vid) with
  | none => none
  | some w => some { F := uid, T := vid, W := w }

/-- The method `NewWeightedEdge(from, to, w)`: an edge value, the graph is not changed. -/
def NewWeightedEdge (_g : WeightedDirectedGraph) (f t : Int) (w : Nat) : PkgRank.WeightedEdge :=
  { F := f, T := t, W := w }

/-- The method `SetWeightedEdge(e)`: panics when both endpoints have the same
id; otherwise adds the endpoints that are missing and stores the edge,
replacing the one between the same ordered pair. -/
def SetWeightedEdge (g : WeightedDirectedGraph) (e : PkgRank.WeightedEdge) :
    Except Panic WeightedDirectedGraph :=
  if e.F = e.T then .error .selfEdge
  else
    match (if e.F ∈ g.nodes then .ok g else g.AddNode e.F) with
    | .error p => .error p
    | .ok g1 =>
      match (if e.T ∈ g1.nodes then .ok g1 else g1.AddNode e.T) with
      | .error p => .error p
      | .ok g2 => .ok { g2 with edges := mapSet g2.edges (e.F, e.T) e.W }

end WeightedDirectedGraph

/-! ## `ImportGraph` (pkg/graph.go) -/

/-- The struct `ImportGraph`. -/
structure ImportGraph where
  g : WeightedDirectedGraph
  idToImport : List (Int × String)
  importToID : List (String × Int)
  deriving DecidableEq, Repr

/-- The function `NewImportGraph`. -/
def NewImportGraph : ImportGraph :=
  { g := NewWeightedDirectedGraph, idToImport := [], importToID := [] }

namespace ImportGraph

/-- The method `Len`: the number of nodes in the graph. -/
def Len (g : ImportGraph) : Nat := g.g.nodes.length

/-- The method `AddNode`: the node of an import that has one already, else a
new node, recorded in both maps. Returns the node (nil is `none`) and the graph. -/
def AddNode (g : ImportGraph) (imp : String) : Except Panic (Option Int × ImportGraph) :=
  match mapGet g.importToID imp with
  | some id => .ok (g.g.Node id, g)
  | none =>
    let n := g.g.NewNode
    match g.g.AddNode n with
    | .error p => .error p
    | .ok gg =>
      .ok (some n, { g := gg,
                     importToID := mapSet g.importToID imp n,
                     idToImport := mapSet g.idToImport n imp })

/-- The method `UpdateEdge`: resolves both imports with `AddNode`, then stores
the edge with weight 1 when there was none and with the old weight plus 1
otherwise. -/
def UpdateEdge (g : ImportGraph) (imp1 imp2 : String) : Except Panic ImportGraph :=
  match g.AddNode imp1 with
  | .error p => .error p
  | .ok (n1, g1) =>
    match g1.AddNode imp2 with
    | .error p => .error p
    | .ok (n2, g2) =>
      match n1, n2 with
      | some i1, some i2 =>
        let we :=
          match g2.g.WeightedEdge i1 i2 with
          | none => g2.g.NewWeightedEdge i1 i2 1
          | some we => g2.g.NewWeightedEdge i1 i2 (we.W + 1)
        match g2.g.SetWeightedEdge we with
        | .error p => .error p
        | .ok gg => .ok { g2 with g := gg }
      | _, _ => .error .nilNode

end ImportGraph

/-! ## `BuildGraph` (pkg/graph.go) -/

/-- The Import Source: `ListGoFiles` and `ListImports`, which shell out to the
Go toolchain; `none` is a returned error. -/
structure ImportSource where
  ListGoFiles : String → Option (List String)
  ListImports : String → String → Option (List String)

/-- The query targets of a task (lines 98-108): the package itself when
`iterPkg` is set, else its Go files; `none` when the file listing fails. -/
def taskTargets (src : ImportSource) (iterPkg : Bool) (pkg : String) : Option (List String) :=
  if iterPkg then some [pkg] else src.ListGoFiles pkg

/-- The query loop of a task (lines 109-117): the imports of every target,
appended in target order; `none` as soon as one query fails. -/
def queryImports (src : ImportSource) (pre : String) :
    List String → List String → Option (List String)
  | allImports, [] => some allImports
  | allImports, pkgOrFile :: rest =>
    match src.ListImports pkgOrFile pre with
    | none => none
    | some imps => queryImports src pre (allImports ++ imps) rest

/-- The merge loop of a task (lines 119-121): one `UpdateEdge(pkg, imp)` per import. -/
def mergeImports (g : ImportGraph) (pkg : String) : List String → Except Panic ImportGraph
  | [] => .ok g
  | imp :: rest =>
    match g.UpdateEdge pkg imp with
    | .error p => .error p
    | .ok g1 => mergeImports g1 pkg rest

/-- The query phase of a task (lines 98-117): the imports of all its targets,
`none` when the file listing or one import query fails. -/
def taskImports (src : ImportSource) (pre : String) (iterPkg : Bool) (pkg : String) :
    Option (List String) :=
  match taskTargets src iterPkg pkg with
  | none => none
  | some targets => queryImports src pre [] targets

/-- The body of the goroutine started for one package (lines 92-123): a task
whose query phase fails prints the error and returns without touching the
graph; the others merge their imports. -/
def buildTask (src : ImportSource) (pre : String) (iterPkg : Bool) (g : ImportGraph)
    (pkg : String) : Except Panic ImportGraph :=
  match taskImports src pre iterPkg pkg with
  | none => .ok g
  | some allImports => mergeImports g pkg allImports

/-- The graph as `UpdateEdge` leaves it when it panics: the `AddNode` calls
that completed have changed it, the edge store is untouched (gonum panics
before it writes). -/
def ImportGraph.leftByPanic (g : ImportGraph) (imp1 imp2 : String) : ImportGraph :=
  match g.AddNode imp1 with
  | .error _ => g
  | .ok (_, g1) =>
    match g1.AddNode imp2 with
    | .error _ => g1
    | .ok (_, g2) => g2

/-- The graph the merge loop of a task leaves behind, also when one of its
`UpdateEdge` calls panics and ends the loop. -/
def mergeLeft (g : ImportGraph) (pkg : String) : List String → ImportGraph
  | [] => g
  | imp :: rest =>
    match g.UpdateEdge pkg imp with
    | .error _ => g.leftByPanic pkg imp
    | .ok g1 => mergeLeft g1 pkg rest

/-- The graph a task leaves behind, whether it completes, fails or panics. -/
def taskLeft (src : ImportSource) (pre : String) (iterPkg : Bool) (g : ImportGraph)
    (pkg : String) : ImportGraph :=
  match taskImports src pre iterPkg pkg with
  | none => g
  | some allImports => mergeLeft g pkg allImports

/-- The tasks of a package list, merged one after the other into `g`. A task
that panics does so holding the mutex, so no later task merges: the result is
then the panic and the graph as the panic left it. -/
def buildTasks (src : ImportSource) (pre : String) (iterPkg : Bool) :
    ImportGraph → List String → Except (Panic × ImportGraph) ImportGraph
  | g, [] => .ok g
  | g, pkg :: rest =>
    match buildTask src pre iterPkg g pkg with
    | .error p => .error (p, taskLeft src pre iterPkg g pkg)
    | .ok g1 => buildTasks src pre iterPkg g1 rest

/-- What a call of `BuildGraph` comes to. -/
inductive BuildOutcome where
  /-- Every worker is done and none panicked: `return g, nil`; `err` is the
  returned `error`. -/
  | returned (g : ImportGraph) (err : Option String)
  /-- A worker panicked in its merge loop: the process dies with the panic `p`.
  The deferred `wg.Done()` of the worker still runs, so the caller can see
  `g`, the graph as the panic left it, returned with a nil error before the
  process is gone. -/
  | crashed (p : Panic) (g : ImportGraph)
  deriving DecidableEq, Repr

/-- The function `BuildGraph`. -/
def BuildGraph (src : ImportSource) (pkgs : List String) (pre : String) (iterPkg : Bool) :
    BuildOutcome :=
  match buildTasks src pre iterPkg NewImportGraph pkgs with
  | .error (p, g) => .crashed p g
  | .ok g => .returned g none

/-! ## `Centrality` (pkg/graph.go) -/

/-- The local struct `sortable` of `Centrality`. -/
structure sortable (σ : Type) where
  imp : String
  score : σ

/-- Insertion of one element in front of the first element that is not less than it. -/
def sortInsert {α : Type} (less : α → α → Bool) (x : α) : List α → List α
  | [] => [x]
  | y :: ys => if less y x then y :: sortInsert less x ys else x :: y :: ys

/-- The library call `sort.Slice(s, less)`: sorts by `less`; the order of equal
elements is not specified. Embedded as an insertion sort. -/
def sortSlice {α : Type} (less : α → α → Bool) : List α → List α
  | [] => []
  | x :: xs => sortInsert less x (sortSlice less xs)

/-- The method `Centrality`: two empty slices for an empty graph, else
the imports and scores of the ranking, sorted by decreasing score. The ranking step
`network.PageRank(g.g, 0.85, 0.0001)` is `pageRank`; the list it returns is the
score map in the order the `range` loop visits it. -/
def ImportGraph.Centrality {σ : Type} [LinearOrder σ]
    (pageRank : WeightedDirectedGraph → List (Int × σ)) (g : ImportGraph) :
    List String × List σ :=
  if g.Len = 0 then ([], [])
  else
    let centrality := pageRank g.g
    let sorted : List (sortable σ) :=
      centrality.map (fun e => { imp := (mapGet g.idToImport e.1).getD "", score := e.2 })
    let sorted := sortSlice (fun a b => decide (a.score > b.score)) sorted
    (sorted.map (fun s => s.imp), sorted.map (fun s => s.score))

/-! ## `runRoot` (cmd/root.go) -/

/-- The flags registered in `init`. -/
structure Flags where
  pre : String
  num : Int
  pkg : Bool
  deriving DecidableEq, Repr

/-- The default values given in `init`: `--prefix ""`, `--num 16`, `--pkg false`. -/
def defaultFlags : Flags := { pre := "", num := 16, pkg := false }

/-- The print loop of `runRoot` (lines 47-52), from index `i` on: the lines
printed, each a score and an import. -/
def printLoop {σ : Type} (num : Int) (scores : List σ) :
    Nat → List String → Except Panic (List (σ × String))
  | _, [] => .ok []
  | i, imp :: rest =>
    if 0 < i ∧ (i : Int) > num then .ok []
    else
      match scores.get? i with
      | none => .error .indexOutOfRange
      | some s =>
        match printLoop num scores (i + 1) rest with
        | .error p => .error p
        | .ok out => .ok ((s, imp) :: out)

/-- What a call of `runRoot` comes to. -/
inductive RunOutcome (σ : Type) where
  /-- The call returns `err` after printing the lines `out`. -/
  | exited (err : Option String) (out : List (σ × String))
  /-- The process dies with the panic `p`; `out` are the lines `runRoot` prints
  when it gets that far before the process is gone. -/
  | crashed (p : Panic) (out : List (σ × String))
  deriving DecidableEq, Repr

/-- The function `runRoot`. `listPackages` is `pkg.ListPackages`, which shells
out. The scores and the labels `Centrality` returns have the same length, so
the print loop itself does not panic. -/
def runRoot {σ : Type} [LinearOrder σ] (listPackages : String → Except String (List String))
    (src : ImportSource) (pageRank : WeightedDirectedGraph → List (Int × σ))
    (root : String) (flags : Flags) : RunOutcome σ :=
  match listPackages root with
  | .error err => .exited (some err) []
  | .ok pkgs =>
    match BuildGraph src pkgs flags.pre flags.pkg with
    | .returned _ (some err) => .exited (some err) []
    | .returned g none =>
      let r := g.Centrality pageRank
      match printLoop flags.num r.2 0 r.1 with
      | .error p => .crashed p []
      | .ok out => .exited none out
    | .crashed p g =>
      let r := g.Centrality pageRank
      match printLoop flags.num r.2 0 r.1 with
      | .error _ => .crashed p []
      | .ok out => .crashed p out

/-! ## Runs of graph operations -/

/-- A call on an `ImportGraph`. -/
inductive Op where
  | addNode (imp : String)
  | updateEdge (imp1 imp2 : String)
  deriving DecidableEq, Repr

/-- One call, its return value dropped. -/
def Op.apply (g : ImportGraph) : Op → Except Panic ImportGraph
  | .addNode imp =>
    match g.AddNode imp with
    | .error p => .error p
    | .ok (_, g1) => .ok g1
  | .updateEdge imp1 imp2 => g.UpdateEdge imp1 imp2

/-- A sequence of calls, in order. -/
def run : ImportGraph → List Op → Except Panic ImportGraph
  | g, [] => .ok g
  | g, op :: rest =>
    match op.apply g with
    | .error p => .error p
    | .ok g1 => run g1 rest

/-- The endpoints of an `UpdateEdge` call are distinct labels. -/
def Op.distinct : Op → Prop
  | .addNode _ => True
  | .updateEdge imp1 imp2 => imp1 ≠ imp2

instance (op : Op) : Decidable op.distinct := by
  cases op <;> simp only [Op.distinct] <;> infer_instance

/-- The labels a call names. -/
def Op.labels : Op → List String
  | .addNode imp => [imp]
  | .updateEdge imp1 imp2 => [imp1, imp2]

/-- The labels of the nodes of the underlying graph, read through `idToImport`. -/
def nodeLabels (g : ImportGraph) : List String :=
  g.g.nodes.map (fun id => (mapGet g.idToImport id).getD "")

/-- The weight of the edge between two labels, `none` when a label has no
node or there is no edge. -/
def edgeWeight (g : ImportGraph) (a b : String) : Option Nat :=
  match mapGet g.importToID a, mapGet g.importToID b with
  | some ia, some ib => mapGet g.g.edges (ia, ib)
  | _, _ => none

/-- `UpdateEdge` over a list of (source, target) pairs, in order. -/
def updateEdges (g : ImportGraph) (l : List (String × String)) : Except Panic ImportGraph :=
  run g (l.map (fun p => Op.updateEdge p.1 p.2))

/-- `UpdateEdge(a, b)` repeated `k` times. -/
def repeatUpdate (a b : String) : Nat → ImportGraph → Except Panic ImportGraph
  | 0, g => .ok g
  | k + 1, g =>
    match g.UpdateEdge a b with
    | .error p => .error p
    | .ok g1 => repeatUpdate a b k g1

/-! ## The shape of reachable graphs -/

/-- The shape every graph built by `AddNode` and `UpdateEdge` has: the ids are
0, 1, ... in the order the labels arrived, both maps list the same pairs, and
edges join two different nodes of the graph. -/
structure Inv (g : ImportGraph) : Prop where
  nodes_eq : g.g.nodes = List.map (fun n : Nat => (n : Int)) (List.range g.importToID.length)
  maxID_eq : g.g.maxID = (g.importToID.length : Int) - 1
  ids_eq : g.importToID.map Prod.snd = g.g.nodes
  swap_eq : g.idToImport = g.importToID.map Prod.swap
  keys_nodup : (g.importToID.map Prod.fst).Nodup
  edges_in : ∀ u v w, mapGet g.g.edges (u, v) = some w →
    u ∈ g.g.nodes ∧ v ∈ g.g.nodes ∧ u ≠ v

/-- The graph after `AddNode` of a label that had no node: the next id is the
number of labels seen so far. -/
def grown (g : ImportGraph) (imp : String) : ImportGraph :=
  { g := { nodes := g.g.nodes ++ [(g.importToID.length : Int)],
           edges := g.g.edges,
           maxID := (g.importToID.length : Int) },
    importToID := g.importToID ++ [(imp, (g.importToID.length : Int))],
    idToImport := g.idToImport ++ [((g.importToID.length : Int), imp)] }

/-- The graph with the weight of the edge between two ids raised by one. -/
def bumped (g : ImportGraph) (i1 i2 : Int) : ImportGraph :=
  { g with g := { g.g with
      edges := mapSet g.g.edges (i1, i2) ((mapGet g.g.edges (i1, i2)).getD 0 + 1) } }

/-- The labels named by a sequence of calls. -/
def opsLabels : List Op → List String
  | [] => []
  | op :: rest => op.labels ++ opsLabels rest

/-- A weight after `c` more observations of its edge. -/
def addObs (w : Option Nat) (c : Nat) : Option Nat :=
  if c = 0 then w else some (w.getD 0 + c)

/-- The calls the task of a package makes on the graph: none when its query
phase fails, else one `UpdateEdge` per collected import. -/
def taskOps (src : ImportSource) (pre : String) (iterPkg : Bool) (pkg : String) : List Op :=
  match taskImports src pre iterPkg pkg with
  | none => []
  | some allImports => allImports.map (Op.updateEdge pkg)

/-! ## Example inputs -/

/-- An Import Source in which every package has one file and imports the package `A`. -/
def selfImportSource : ImportSource :=
  { ListGoFiles := fun p => some [p ++ "/a.go"],
    ListImports := fun _ _ => some ["A"] }

/-- An Import Source in which every package has one file and nothing imports anything. -/
def noImportSource : ImportSource :=
  { ListGoFiles := fun p => some [p ++ "/a.go"],
    ListImports := fun _ _ => some [] }

/-- An Import Source in which every package has two files and every package
and every file imports `x`. -/
def twoFileSource : ImportSource :=
  { ListGoFiles := fun p => some [p ++ "/a.go", p ++ "/b.go"],
    ListImports := fun _ _ => some ["x"] }

/-- An Import Source in which the file listing of `bad` fails, the import
query of the file of `q` fails, and every other file imports `x`. -/
def flakySource : ImportSource :=
  { ListGoFiles := fun p => if p = "bad" then none else some [p ++ "/a.go"],
    ListImports := fun t _ => if t = "q/a.go" then none else some ["x"] }

/-- An Import Source in which every package has one file, the file of `A`
imports nothing and every other file imports `x`. -/
def mixedSource : ImportSource :=
  { ListGoFiles := fun p => some [p ++ "/a.go"],
    ListImports := fun t _ => if t = "A/a.go" then some [] else some ["x"] }

/-- A ranking step that gives every node the score 1. -/
def unitRank (wg : WeightedDirectedGraph) : List (Int × Int) :=
  wg.nodes.map (fun i => (i, 1))

/-- A ranking step that gives every node its own id as score. -/
def idRank (wg : WeightedDirectedGraph) : List (Int × Int) :=
  wg.nodes.map (fun i => (i, i))

/-- The graph with the single edge from `a` to `b`, of weight `k`. -/
def oneEdge (a b : String) (k : Nat) : ImportGraph :=
  { g := { nodes := [0, 1], edges := [((0, 1), k)], maxID := 1 },
    idToImport := [(0, a), (1, b)],
    importToID := [(a, 0), (b, 1)] }

/-! ## Lemmas on maps -/

theorem mapGet_eq_none_iff {κ ν : Type} [DecidableEq κ] (m : List (κ × ν)) (k : κ) :
    mapGet m k = none ↔ k ∉ m.map Prod.fst := by
  induction m with
  | nil => simp [mapGet]
  | cons e rest ih =>
    obtain ⟨k', v⟩ := e
    by_cases h : k' = k
    · simp [mapGet, h]
    · simp [mapGet, h, ih, Ne.symm h]

theorem mapGet_some_mem {κ ν : Type} [DecidableEq κ] (m : List (κ × ν)) (k : κ) (v : ν)
    (h : mapGet m k = some v) : (k, v) ∈ m := by
  induction m with
  | nil => simp [mapGet] at h
  | cons e rest ih =>
    obtain ⟨k', v'⟩ := e
    by_cases hk : k' = k
    · simp [mapGet, hk] at h
      simp [hk, h]
    · simp [mapGet, hk] at h
      exact List.mem_cons_of_mem _ (ih h)

theorem mapGet_of_mem {κ ν : Type} [DecidableEq κ] (m : List (κ × ν)) (k : κ) (v : ν)
    (hn : (m.map Prod.fst).Nodup) (h : (k, v) ∈ m) : mapGet m k = some v := by
  induction m with
  | nil => simp at h
  | cons e rest ih =>
    obtain ⟨k', v'⟩ := e
    simp only [List.map_cons, List.nodup_cons] at hn
    rcases List.mem_cons.1 h with h1 | h1
    · cases h1
      simp [mapGet]
    · have hk : k' ≠ k := by
        rintro rfl
        exact hn.1 (List.mem_map_of_mem Prod.fst h1)
      simp [mapGet, hk, ih hn.2 h1]

theorem mapSet_of_not_mem {κ ν : Type} [DecidableEq κ] (m : List (κ × ν)) (k : κ) (v : ν)
    (h : k ∉ m.map Prod.fst) : mapSet m k v = m ++ [(k, v)] := by
  induction m with
  | nil => simp [mapSet]
  | cons e rest ih =>
    obtain ⟨k', v'⟩ := e
    simp only [List.map_cons, List.mem_cons, not_or] at h
    simp [mapSet, Ne.symm h.1, ih h.2]

theorem mapGet_mapSet {κ ν : Type} [DecidableEq κ] (m : List (κ × ν)) (k k' : κ) (v : ν) :
    mapGet (mapSet m k v) k' = if k = k' then some v else mapGet m k' := by
  induction m with
  | nil => simp [mapSet, mapGet]
  | cons e rest ih =>
    obtain ⟨k0, v0⟩ := e
    by_cases h0 : k0 = k
    · subst h0
      by_cases h1 : k0 = k' <;> simp [mapSet, mapGet, h1]
    · by_cases h1 : k0 = k'
      · subst h1
        simp [mapSet, mapGet, h0, Ne.symm h0]
      · simp [mapSet, mapGet, h0, h1, ih]

theorem mapGet_append_single {κ ν : Type} [DecidableEq κ] (m : List (κ × ν)) (k k' : κ) (v : ν) :
    mapGet (m ++ [(k, v)]) k' =
      match mapGet m k' with
      | some w => some w
      | none => if k = k' then some v else none := by
  induction m with
  | nil => simp [mapGet]
  | cons e rest ih =>
    obtain ⟨k0, v0⟩ := e
    by_cases h0 : k0 = k'
    · simp [mapGet, h0]
    · simp [mapGet, h0, ih]

/-! ## The invariant of reachable graphs -/

theorem Inv_new : Inv NewImportGraph := by
  constructor <;> simp [NewImportGraph, NewWeightedDirectedGraph, mapGet]

theorem Inv.nodes_nodup {g : ImportGraph} (h : Inv g) : g.g.nodes.Nodup := by
  rw [h.nodes_eq]
  have hinj : Function.Injective (fun n : Nat => (n : Int)) := fun a b hab => by simpa using hab
  exact (List.nodup_map_iff hinj).2 (List.nodup_range _)

theorem Inv.fresh {g : ImportGraph} (h : Inv g) :
    ((g.importToID.length : Nat) : Int) ∉ g.g.nodes := by
  rw [h.nodes_eq]
  simp

theorem Inv.id_mem {g : ImportGraph} (h : Inv g) {l : String} {i : Int}
    (hl : mapGet g.importToID l = some i) : i ∈ g.g.nodes := by
  rw [← h.ids_eq]
  exact List.mem_map_of_mem Prod.snd (mapGet_some_mem _ _ _ hl)

theorem Inv.inj {g : ImportGraph} (h : Inv g) {a b : String} {i : Int}
    (ha : mapGet g.importToID a = some i) (hb : mapGet g.importToID b = some i) : a = b := by
  have hn : (g.importToID.map Prod.snd).Nodup := by
    rw [h.ids_eq]; exact h.nodes_nodup
  have := List.inj_on_of_nodup_map hn (mapGet_some_mem _ _ _ ha) (mapGet_some_mem _ _ _ hb) rfl
  exact congrArg Prod.fst this

theorem Inv.ids_nodup {g : ImportGraph} (h : Inv g) : (g.idToImport.map Prod.fst).Nodup := by
  rw [h.swap_eq, List.map_map]
  have : (Prod.fst ∘ Prod.swap : String × Int → Int) = Prod.snd := by
    funext x; rfl
  rw [this, h.ids_eq]
  exact h.nodes_nodup

/-- The two maps are inverse to each other. -/
theorem Inv.inverse {g : ImportGraph} (h : Inv g) (l : String) (i : Int) :
    mapGet g.importToID l = some i ↔ mapGet g.idToImport i = some l := by
  constructor
  · intro hl
    apply mapGet_of_mem _ _ _ h.ids_nodup
    rw [h.swap_eq]
    exact List.mem_map.2 ⟨(l, i), mapGet_some_mem _ _ _ hl, rfl⟩
  · intro hi
    have := mapGet_some_mem _ _ _ hi
    rw [h.swap_eq] at this
    obtain ⟨⟨l', i'⟩, hm, he⟩ := List.mem_map.1 this
    simp only [Prod.swap, Prod.mk.injEq] at he
    obtain ⟨rfl, rfl⟩ := he
    exact mapGet_of_mem _ _ _ h.keys_nodup hm

/-! ## `AddNode` on a graph of that shape -/

theorem Inv.len_nodes {g : ImportGraph} (h : Inv g) : g.g.nodes.length = g.importToID.length := by
  rw [h.nodes_eq]; simp

theorem Inv.idKeys {g : ImportGraph} (h : Inv g) : g.idToImport.map Prod.fst = g.g.nodes := by
  rw [h.swap_eq, List.map_map, ← h.ids_eq]
  rfl

theorem AddNode_old {g : ImportGraph} (h : Inv g) {imp : String} {i : Int}
    (hi : mapGet g.importToID imp = some i) : g.AddNode imp = .ok (some i, g) := by
  simp [ImportGraph.AddNode, hi, WeightedDirectedGraph.Node, h.id_mem hi]

theorem AddNode_new {g : ImportGraph} (h : Inv g) {imp : String}
    (hn : mapGet g.importToID imp = none) :
    g.AddNode imp = .ok (some (g.importToID.length : Int), grown g imp) := by
  have hnew : g.g.NewNode = (g.importToID.length : Int) := by
    unfold WeightedDirectedGraph.NewNode
    rw [h.len_nodes, h.maxID_eq]
    split
    · next h0 => simp [h0]
    · omega
  have hfresh := h.fresh
  have hk1 : imp ∉ g.importToID.map Prod.fst := (mapGet_eq_none_iff _ _).1 hn
  have hk2 : (g.importToID.length : Int) ∉ g.idToImport.map Prod.fst := by
    rw [h.idKeys]; exact hfresh
  have hmax : max g.g.maxID (g.importToID.length : Int) = (g.importToID.length : Int) := by
    rw [h.maxID_eq]; omega
  simp only [ImportGraph.AddNode, hn, hnew, WeightedDirectedGraph.AddNode, hfresh, if_false,
    mapSet_of_not_mem _ _ _ hk1, mapSet_of_not_mem _ _ _ hk2, hmax, grown]

theorem Inv_grown {g : ImportGraph} (h : Inv g) {imp : String}
    (hn : mapGet g.importToID imp = none) : Inv (grown g imp) := by
  have hk1 : imp ∉ g.importToID.map Prod.fst := (mapGet_eq_none_iff _ _).1 hn
  constructor
  · simp [grown, List.range_succ, h.nodes_eq]
  · simp [grown]
  · simp [grown, h.ids_eq]
  · simp [grown, h.swap_eq]
  · simp only [grown, List.map_append, List.map_cons, List.map_nil]
    rw [List.nodup_append]
    refine ⟨h.keys_nodup, by simp, ?_⟩
    intro a ha hb
    simp only [List.mem_singleton] at hb
    subst hb
    exact hk1 ha
  · intro u v w huv
    have := h.edges_in u v w huv
    simp only [grown, List.mem_append]
    exact ⟨Or.inl this.1, Or.inl this.2.1, this.2.2⟩

theorem mapGet_grown_of_some {g : ImportGraph} {imp x : String} {j : Int}
    (hx : mapGet g.importToID x = some j) : mapGet (grown g imp).importToID x = some j := by
  simp [grown, mapGet_append_single, hx]

theorem mapGet_grown_self {g : ImportGraph} {imp : String}
    (hn : mapGet g.importToID imp = none) :
    mapGet (grown g imp).importToID imp = some (g.importToID.length : Int) := by
  simp [grown, mapGet_append_single, hn]

theorem mapGet_grown_ne {g : ImportGraph} {imp x : String} (hx : x ≠ imp) :
    mapGet (grown g imp).importToID x = mapGet g.importToID x := by
  simp only [grown, mapGet_append_single]
  cases mapGet g.importToID x <;> simp [Ne.symm hx]

theorem edgeWeight_grown {g : ImportGraph} (h : Inv g) {imp : String}
    (hn : mapGet g.importToID imp = none) (x y : String) :
    edgeWeight (grown g imp) x y = edgeWeight g x y := by
  have hnone : ∀ (u v : Int), (u = (g.importToID.length : Int) ∨ v = (g.importToID.length : Int)) →
      mapGet g.g.edges (u, v) = none := by
    intro u v huv
    cases hm : mapGet g.g.edges (u, v) with
    | none => rfl
    | some w =>
      have := h.edges_in u v w hm
      rcases huv with rfl | rfl
      · exact absurd this.1 h.fresh
      · exact absurd this.2.1 h.fresh
  unfold edgeWeight
  by_cases hx : x = imp
  · subst hx
    rw [mapGet_grown_self hn, hn]
    by_cases hy : y = x
    · subst hy
      rw [mapGet_grown_self hn]
      simpa [grown] using hnone _ _ (Or.inl rfl)
    · rw [mapGet_grown_ne hy]
      cases mapGet g.importToID y with
      | none => rfl
      | some iy => simpa [grown] using hnone _ iy (Or.inl rfl)
  · rw [mapGet_grown_ne hx]
    by_cases hy : y = imp
    · subst hy
      rw [mapGet_grown_self hn, hn]
      cases mapGet g.importToID x with
      | none => rfl
      | some ix => simpa [grown] using hnone ix _ (Or.inr rfl)
    · rw [mapGet_grown_ne hy]
      cases mapGet g.importToID x <;> cases mapGet g.importToID y <;> rfl

/-- What `AddNode` does on a graph of that shape: it returns a node, keeps
the shape, keeps every id given before and every edge weight. -/
theorem AddNode_ok {g : ImportGraph} (h : Inv g) (imp : String) :
    ∃ i g1, g.AddNode imp = .ok (some i, g1) ∧ Inv g1 ∧
      mapGet g1.importToID imp = some i ∧
      (∀ x j, mapGet g.importToID x = some j → mapGet g1.importToID x = some j) ∧
      (∀ x, x ≠ imp → mapGet g1.importToID x = mapGet g.importToID x) ∧
      (∀ x y, edgeWeight g1 x y = edgeWeight g x y) ∧
      (mapGet g.importToID imp = some i → g1 = g) := by
  cases hm : mapGet g.importToID imp with
  | some i =>
    exact ⟨i, g, AddNode_old h hm, h, hm, fun _ _ hx => hx, fun _ _ => rfl, fun _ _ => rfl,
      fun _ => rfl⟩
  | none =>
    refine ⟨_, _, AddNode_new h hm, Inv_grown h hm, mapGet_grown_self hm,
      fun _ _ hx => mapGet_grown_of_some hx, fun _ hx => mapGet_grown_ne hx,
      edgeWeight_grown h hm, ?_⟩
    intro hc
    simp at hc

/-! ## `UpdateEdge` on a graph of that shape -/

theorem SetWeightedEdge_present (g : WeightedDirectedGraph) (e : WeightedEdge)
    (hne : e.F ≠ e.T) (hF : e.F ∈ g.nodes) (hT : e.T ∈ g.nodes) :
    g.SetWeightedEdge e = .ok { g with edges := mapSet g.edges (e.F, e.T) e.W } := by
  simp [WeightedDirectedGraph.SetWeightedEdge, hne, hF, hT]

theorem UpdateEdge_eq {g g1 g2 : ImportGraph} {a b : String} {i1 i2 : Int}
    (e1 : g.AddNode a = .ok (some i1, g1)) (e2 : g1.AddNode b = .ok (some i2, g2))
    (hne : i1 ≠ i2) (h1 : i1 ∈ g2.g.nodes) (h2 : i2 ∈ g2.g.nodes) :
    g.UpdateEdge a b = .ok (bumped g2 i1 i2) := by
  unfold ImportGraph.UpdateEdge
  simp only [e1, e2]
  cases hm : mapGet g2.g.edges (i1, i2) with
  | none =>
    simp only [WeightedDirectedGraph.WeightedEdge, hm, WeightedDirectedGraph.NewWeightedEdge]
    rw [SetWeightedEdge_present _ _ hne h1 h2]
    simp [bumped, hm]
  | some w =>
    simp only [WeightedDirectedGraph.WeightedEdge, hm, WeightedDirectedGraph.NewWeightedEdge]
    rw [SetWeightedEdge_present _ _ hne h1 h2]
    simp [bumped, hm]

theorem Inv_bumped {g : ImportGraph} (h : Inv g) {i1 i2 : Int}
    (h1 : i1 ∈ g.g.nodes) (h2 : i2 ∈ g.g.nodes) (hne : i1 ≠ i2) : Inv (bumped g i1 i2) := by
  refine ⟨h.nodes_eq, h.maxID_eq, h.ids_eq, h.swap_eq, h.keys_nodup, ?_⟩
  intro u v w huv
  simp only [bumped, mapGet_mapSet] at huv
  split at huv
  · next heq =>
    simp only [Prod.mk.injEq] at heq
    obtain ⟨rfl, rfl⟩ := heq
    exact ⟨h1, h2, hne⟩
  · exact h.edges_in u v w huv

theorem edgeWeight_bumped {g : ImportGraph} (h : Inv g) {a b : String} {i1 i2 : Int}
    (ha : mapGet g.importToID a = some i1) (hb : mapGet g.importToID b = some i2)
    (x y : String) :
    edgeWeight (bumped g i1 i2) x y =
      if x = a ∧ y = b then some ((edgeWeight g a b).getD 0 + 1) else edgeWeight g x y := by
  by_cases hxy : x = a ∧ y = b
  · obtain ⟨rfl, rfl⟩ := hxy
    simp [edgeWeight, bumped, ha, hb, mapGet_mapSet]
  · rw [if_neg hxy]
    unfold edgeWeight
    show (match mapGet g.importToID x, mapGet g.importToID y with
      | some ia, some ib => mapGet (bumped g i1 i2).g.edges (ia, ib)
      | _, _ => none) = _
    cases hx : mapGet g.importToID x with
    | none => rfl
    | some ix =>
      cases hy : mapGet g.importToID y with
      | none => rfl
      | some iy =>
        simp only [bumped, mapGet_mapSet]
        rw [if_neg]
        rintro heq
        simp only [Prod.mk.injEq] at heq
        obtain ⟨rfl, rfl⟩ := heq
        exact hxy ⟨h.inj hx ha, h.inj hy hb⟩

/-- What `UpdateEdge` does for two distinct labels on a graph of that shape:
it completes, keeps the shape and every id given before, gives both labels a
node, and raises the weight between them by one and no other weight. -/
theorem UpdateEdge_ok {g : ImportGraph} (h : Inv g) {a b : String} (hab : a ≠ b) :
    ∃ g3, g.UpdateEdge a b = .ok g3 ∧ Inv g3 ∧
      (∀ x j, mapGet g.importToID x = some j → mapGet g3.importToID x = some j) ∧
      (∀ x, (mapGet g3.importToID x).isSome ↔
        ((mapGet g.importToID x).isSome ∨ x = a ∨ x = b)) ∧
      (∀ x y, edgeWeight g3 x y =
        if x = a ∧ y = b then some ((edgeWeight g a b).getD 0 + 1) else edgeWeight g x y) := by
  obtain ⟨i1, g1, e1, inv1, ha1, keep1, ne1, ew1, -⟩ := AddNode_ok h a
  obtain ⟨i2, g2, e2, inv2, hb2, keep2, ne2, ew2, -⟩ := AddNode_ok inv1 b
  have ha2 : mapGet g2.importToID a = some i1 := keep2 _ _ ha1
  have hne : i1 ≠ i2 := by
    rintro rfl
    exact hab (inv2.inj ha2 hb2)
  refine ⟨bumped g2 i1 i2, UpdateEdge_eq e1 e2 hne (inv2.id_mem ha2) (inv2.id_mem hb2),
    Inv_bumped inv2 (inv2.id_mem ha2) (inv2.id_mem hb2) hne, ?_, ?_, ?_⟩
  · intro x j hx
    exact keep2 _ _ (keep1 _ _ hx)
  · intro x
    show (mapGet g2.importToID x).isSome ↔ _
    by_cases hxb : x = b
    · subst hxb
      simp [hb2]
    · rw [ne2 x hxb]
      by_cases hxa : x = a
      · subst hxa
        simp [ha1]
      · rw [ne1 x hxa]
        simp [hxa, hxb]
  · intro x y
    rw [edgeWeight_bumped inv2 ha2 hb2, ew2, ew1, ew2, ew1]

/-! ## Runs keep the shape -/

theorem Op_apply_ok {g : ImportGraph} (h : Inv g) (op : Op) (hd : op.distinct) :
    ∃ g1, op.apply g = .ok g1 ∧ Inv g1 ∧
      (∀ x j, mapGet g.importToID x = some j → mapGet g1.importToID x = some j) ∧
      (∀ x, (mapGet g1.importToID x).isSome ↔ ((mapGet g.importToID x).isSome ∨ x ∈ op.labels)) ∧
      (∀ x y, edgeWeight g1 x y = addObs (edgeWeight g x y) (List.count (Op.updateEdge x y) [op])) := by
  cases op with
  | addNode imp =>
    obtain ⟨i, g1, e1, inv1, hi, keep1, ne1, ew1, -⟩ := AddNode_ok h imp
    refine ⟨g1, by simp [Op.apply, e1], inv1, keep1, ?_, ?_⟩
    · intro x
      by_cases hx : x = imp
      · subst hx
        simp [hi, Op.labels]
      · rw [ne1 x hx]
        simp [Op.labels, hx]
    · intro x y
      simp [ew1, addObs]
  | updateEdge a b =>
    obtain ⟨g1, e1, inv1, keep1, lab1, ew1⟩ := UpdateEdge_ok h hd
    refine ⟨g1, by simp [Op.apply, e1], inv1, keep1, ?_, ?_⟩
    · intro x
      rw [lab1 x]
      simp [Op.labels]
    · intro x y
      rw [ew1]
      by_cases hxy : x = a ∧ y = b
      · obtain ⟨rfl, rfl⟩ := hxy
        simp [addObs]
      · have : Op.updateEdge a b ≠ Op.updateEdge x y := by
          intro heq
          injection heq with h1 h2
          exact hxy ⟨h1.symm, h2.symm⟩
        simp [addObs, hxy, List.count_cons, this]

theorem addObs_addObs (w : Option Nat) (c d : Nat) : addObs (addObs w c) d = addObs w (c + d) := by
  unfold addObs
  by_cases hc : c = 0 <;> by_cases hd : d = 0 <;> simp [hc, hd]
  omega

/-- A run of calls with distinct endpoints completes and keeps the shape; the
labels with a node are those it had plus those named, and every weight grows
by the number of `UpdateEdge` calls on its edge. -/
theorem run_ok (ops : List Op) : ∀ {g : ImportGraph}, Inv g → (∀ op ∈ ops, op.distinct) →
    ∃ g1, run g ops = .ok g1 ∧ Inv g1 ∧
      (∀ x j, mapGet g.importToID x = some j → mapGet g1.importToID x = some j) ∧
      (∀ x, (mapGet g1.importToID x).isSome ↔
        ((mapGet g.importToID x).isSome ∨ x ∈ opsLabels ops)) ∧
      (∀ x y, edgeWeight g1 x y =
        addObs (edgeWeight g x y) (List.count (Op.updateEdge x y) ops)) := by
  induction ops with
  | nil =>
    intro g h _
    exact ⟨g, rfl, h, fun _ _ hx => hx, by simp [opsLabels], by simp [addObs]⟩
  | cons op rest ih =>
    intro g h hd
    obtain ⟨g1, e1, inv1, keep1, lab1, ew1⟩ := Op_apply_ok h op (hd op (List.mem_cons_self _ _))
    obtain ⟨g2, e2, inv2, keep2, lab2, ew2⟩ :=
      ih inv1 (fun o ho => hd o (List.mem_cons_of_mem _ ho))
    refine ⟨g2, by simp [run, e1, e2], inv2, fun x j hx => keep2 _ _ (keep1 _ _ hx), ?_, ?_⟩
    · intro x
      rw [lab2 x, lab1 x]
      simp [opsLabels, or_assoc]
    · intro x y
      rw [ew2, ew1, addObs_addObs]
      congr 1
      rw [List.count_cons, List.count_cons, List.count_nil]
      omega

/-! ## Self-loops -/

theorem UpdateEdge_self {g : ImportGraph} (h : Inv g) (a : String) :
    g.UpdateEdge a a = .error .selfEdge := by
  obtain ⟨i, g1, e1, inv1, hi, -, -, -, -⟩ := AddNode_ok h a
  have e2 := AddNode_old inv1 hi
  unfold ImportGraph.UpdateEdge
  simp only [e1, e2]
  cases hm : mapGet g1.g.edges (i, i) <;>
    simp [WeightedDirectedGraph.WeightedEdge, hm, WeightedDirectedGraph.NewWeightedEdge,
      WeightedDirectedGraph.SetWeightedEdge]

theorem Op_apply_inv {g g1 : ImportGraph} (h : Inv g) (op : Op) (e : op.apply g = .ok g1) :
    Inv g1 ∧ op.distinct := by
  have hd : op.distinct := by
    cases op with
    | addNode imp => trivial
    | updateEdge a b =>
      intro hab
      subst hab
      simp [Op.apply, UpdateEdge_self h] at e
  obtain ⟨g2, e2, inv2, -⟩ := Op_apply_ok h op hd
  rw [e] at e2
  cases e2
  exact ⟨inv2, hd⟩

/-- Every graph a run returns has the shape, and the run had no self-loop call. -/
theorem run_inv (ops : List Op) : ∀ {g g1 : ImportGraph}, Inv g → run g ops = .ok g1 →
    Inv g1 ∧ ∀ op ∈ ops, op.distinct := by
  induction ops with
  | nil =>
    intro g g1 h e
    simp only [run] at e
    cases e
    exact ⟨h, by simp⟩
  | cons op rest ih =>
    intro g g1 h e
    simp only [run] at e
    cases ha : op.apply g with
    | error p => simp [ha] at e
    | ok g2 =>
      simp only [ha] at e
      obtain ⟨inv2, hd⟩ := Op_apply_inv h op ha
      obtain ⟨inv3, hds⟩ := ih inv2 e
      refine ⟨inv3, ?_⟩
      intro o ho
      rcases List.mem_cons.1 ho with rfl | ho
      · exact hd
      · exact hds o ho

/-! ## Node labels -/

theorem nodeLabels_eq {g : ImportGraph} (h : Inv g) : nodeLabels g = g.importToID.map Prod.fst := by
  unfold nodeLabels
  rw [← h.ids_eq, List.map_map]
  apply List.map_congr_left
  intro e he
  obtain ⟨l, i⟩ := e
  have := (h.inverse l i).1 (mapGet_of_mem _ _ _ h.keys_nodup he)
  simp [this]

theorem mem_nodeLabels {g : ImportGraph} (h : Inv g) (x : String) :
    x ∈ nodeLabels g ↔ (mapGet g.importToID x).isSome := by
  rw [nodeLabels_eq h]
  have := mapGet_eq_none_iff g.importToID x
  cases hm : mapGet g.importToID x with
  | none => simpa [hm] using this
  | some i =>
    rw [hm] at this
    simp only [Option.isSome_some, iff_true]
    by_contra hc
    exact absurd (this.2 hc) (by simp)

theorem Len_eq {g : ImportGraph} (h : Inv g) (labels : List String)
    (hl : ∀ x, (mapGet g.importToID x).isSome ↔ x ∈ labels) :
    g.Len = labels.dedup.length := by
  unfold ImportGraph.Len
  rw [h.len_nodes, ← List.card_toFinset, ← List.length_map g.importToID Prod.fst,
    ← List.toFinset_card_of_nodup h.keys_nodup]
  congr 1
  ext x
  rw [List.mem_toFinset, List.mem_toFinset, ← nodeLabels_eq h, mem_nodeLabels h, hl]

/-! ## The tasks of `BuildGraph` -/

theorem mergeImports_eq_run (pkg : String) (imps : List String) : ∀ g : ImportGraph,
    mergeImports g pkg imps = run g (imps.map (Op.updateEdge pkg)) := by
  induction imps with
  | nil => intro g; rfl
  | cons imp rest ih =>
    intro g
    simp only [mergeImports, List.map_cons, run, Op.apply]
    cases g.UpdateEdge pkg imp with
    | error p => rfl
    | ok g1 => exact ih g1

theorem mergeImports_ok {g : ImportGraph} (h : Inv g) (pkg : String) (imps : List String)
    (hs : pkg ∉ imps) : ∃ g1, mergeImports g pkg imps = .ok g1 ∧ Inv g1 := by
  rw [mergeImports_eq_run]
  have hd : ∀ op ∈ imps.map (Op.updateEdge pkg), op.distinct := by
    intro op hop
    obtain ⟨imp, hi, rfl⟩ := List.mem_map.1 hop
    intro heq
    exact hs (heq ▸ hi)
  obtain ⟨g1, e1, inv1, -⟩ := run_ok _ h hd
  exact ⟨g1, e1, inv1⟩

theorem run_append (ops1 ops2 : List Op) : ∀ g : ImportGraph,
    run g (ops1 ++ ops2) =
      match run g ops1 with
      | .error p => .error p
      | .ok g1 => run g1 ops2 := by
  induction ops1 with
  | nil => intro g; rfl
  | cons op rest ih =>
    intro g
    simp only [List.cons_append, run]
    cases op.apply g with
    | error p => rfl
    | ok g1 => exact ih g1

theorem buildTask_eq_run (src : ImportSource) (pre : String) (iterPkg : Bool)
    (g : ImportGraph) (pkg : String) :
    buildTask src pre iterPkg g pkg = run g (taskOps src pre iterPkg pkg) := by
  unfold buildTask taskOps
  cases taskImports src pre iterPkg pkg with
  | none => rfl
  | some imps => exact mergeImports_eq_run pkg imps g

/-- When the calls of all tasks run through, so do the tasks, with the same graph. -/
theorem buildTasks_of_run (src : ImportSource) (pre : String) (iterPkg : Bool)
    (pkgs : List String) : ∀ g g1 : ImportGraph,
    run g (pkgs.flatMap (taskOps src pre iterPkg)) = .ok g1 →
      buildTasks src pre iterPkg g pkgs = .ok g1 := by
  induction pkgs with
  | nil =>
    intro g g1 h
    simp only [List.flatMap_nil, run] at h
    cases h
    rfl
  | cons pkg rest ih =>
    intro g g1 h
    rw [List.flatMap_cons, run_append] at h
    simp only [buildTasks, buildTask_eq_run]
    cases hr : run g (taskOps src pre iterPkg pkg) with
    | error p => simp [hr] at h
    | ok gm =>
      simp only [hr] at h
      exact ih gm g1 h

theorem taskOps_distinct (src : ImportSource) (pre : String) (iterPkg : Bool)
    (pkgs : List String)
    (hs : ∀ pkg ∈ pkgs, ∀ imps, taskImports src pre iterPkg pkg = some imps → pkg ∉ imps) :
    ∀ op ∈ pkgs.flatMap (taskOps src pre iterPkg), op.distinct := by
  intro op hop
  obtain ⟨pkg, hpkg, hmem⟩ := List.mem_flatMap.1 hop
  unfold taskOps at hmem
  cases ht : taskImports src pre iterPkg pkg with
  | none => simp [ht] at hmem
  | some imps =>
    simp only [ht] at hmem
    obtain ⟨imp, hi, rfl⟩ := List.mem_map.1 hmem
    intro heq
    exact hs pkg hpkg imps ht (heq ▸ hi)

theorem buildTasks_filter (src : ImportSource) (pre : String) (iterPkg : Bool)
    (pkgs : List String) : ∀ g : ImportGraph,
    buildTasks src pre iterPkg g
        (pkgs.filter (fun p => (taskImports src pre iterPkg p).isSome)) =
      buildTasks src pre iterPkg g pkgs := by
  induction pkgs with
  | nil => intro g; rfl
  | cons pkg rest ih =>
    intro g
    cases ht : taskImports src pre iterPkg pkg with
    | none =>
      simp only [List.filter_cons, ht, Option.isSome_none, Bool.false_eq_true, if_false]
      rw [ih g]
      simp [buildTasks, buildTask, ht]
    | some imps =>
      simp only [List.filter_cons, ht, Option.isSome_some, if_true, buildTasks]
      cases buildTask src pre iterPkg g pkg with
      | error p => rfl
      | ok g1 => exact ih g1

theorem queryImports_none (src : ImportSource) (pre : String) (targets : List String) :
    ∀ acc : List String, (∃ t ∈ targets, src.ListImports t pre = none) →
      queryImports src pre acc targets = none := by
  induction targets with
  | nil => intro acc h; simp at h
  | cons t rest ih =>
    intro acc h
    cases ht : src.ListImports t pre with
    | none => simp [queryImports, ht]
    | some imps =>
      simp only [queryImports, ht]
      apply ih
      obtain ⟨u, hu, hnone⟩ := h
      rcases List.mem_cons.1 hu with rfl | hu
      · rw [ht] at hnone
        cases hnone
      · exact ⟨u, hu, hnone⟩

theorem queryImports_some (src : ImportSource) (pre : String) (targets : List String) :
    ∀ acc : List String, (∀ t ∈ targets, (src.ListImports t pre).isSome) →
      queryImports src pre acc targets =
        some (acc ++ (targets.map (fun t => (src.ListImports t pre).getD [])).flatten) := by
  induction targets with
  | nil => intro acc _; simp [queryImports]
  | cons t rest ih =>
    intro acc h
    cases ht : src.ListImports t pre with
    | none =>
      have := h t (List.mem_cons_self _ _)
      simp [ht] at this
    | some imps =>
      simp only [queryImports, ht]
      rw [ih _ (fun u hu => h u (List.mem_cons_of_mem _ hu))]
      simp [ht]

theorem queryImports_nil (src : ImportSource) (pre : String) (targets : List String)
    (h : ∀ t ∈ targets, src.ListImports t pre = some []) :
    queryImports src pre [] targets = some [] := by
  rw [queryImports_some src pre targets [] (fun t ht => by simp [h t ht])]
  have : targets.map (fun t => (src.ListImports t pre).getD []) = targets.map (fun _ => []) :=
    List.map_congr_left (fun t ht => by simp [h t ht])
  rw [this]
  simp

/-! ## Sorting by decreasing score -/

theorem sortInsert_perm {α : Type} (less : α → α → Bool) (x : α) (l : List α) :
    (sortInsert less x l).Perm (x :: l) := by
  induction l with
  | nil => exact List.Perm.refl _
  | cons y ys ih =>
    unfold sortInsert
    split
    · exact ((List.Perm.cons y ih).trans (List.Perm.swap x y ys))
    · exact List.Perm.refl _

theorem sortSlice_perm {α : Type} (less : α → α → Bool) (l : List α) :
    (sortSlice less l).Perm l := by
  induction l with
  | nil => exact List.Perm.refl _
  | cons x xs ih =>
    exact (sortInsert_perm less x _).trans (List.Perm.cons x ih)

theorem sortInsert_sorted {α σ : Type} [LinearOrder σ] (f : α → σ) (x : α) (l : List α)
    (hl : l.Pairwise (fun a b => f b ≤ f a)) :
    (sortInsert (fun a b => decide (f a > f b)) x l).Pairwise (fun a b => f b ≤ f a) := by
  induction l with
  | nil => simp [sortInsert]
  | cons y ys ih =>
    rw [List.pairwise_cons] at hl
    unfold sortInsert
    by_cases hyx : f y > f x
    · simp only [hyx, decide_True, if_true, List.pairwise_cons]
      refine ⟨?_, ih hl.2⟩
      intro z hz
      rcases List.mem_cons.1 ((sortInsert_perm _ x ys).subset hz) with rfl | hz
      · exact le_of_lt hyx
      · exact hl.1 z hz
    · simp only [hyx, decide_False, Bool.false_eq_true, if_false, List.pairwise_cons]
      have hxy : f y ≤ f x := not_lt.1 hyx
      refine ⟨?_, hl.1, hl.2⟩
      intro z hz
      rcases List.mem_cons.1 hz with rfl | hz
      · exact hxy
      · exact le_trans (hl.1 z hz) hxy

theorem sortSlice_sorted {α σ : Type} [LinearOrder σ] (f : α → σ) (l : List α) :
    (sortSlice (fun a b => decide (f a > f b)) l).Pairwise (fun a b => f b ≤ f a) := by
  induction l with
  | nil => simp [sortSlice]
  | cons x xs ih => exact sortInsert_sorted f x _ ih

/-! ## Accumulation on one edge -/

theorem UpdateEdge_new_oneEdge (A B : String) (hAB : A ≠ B) :
    NewImportGraph.UpdateEdge A B = .ok (oneEdge A B 1) := by
  simp [ImportGraph.UpdateEdge, ImportGraph.AddNode, NewImportGraph, NewWeightedDirectedGraph,
    WeightedDirectedGraph.NewNode, WeightedDirectedGraph.AddNode, WeightedDirectedGraph.Node,
    WeightedDirectedGraph.WeightedEdge, WeightedDirectedGraph.NewWeightedEdge,
    WeightedDirectedGraph.SetWeightedEdge, mapGet, mapSet, hAB, oneEdge]

theorem UpdateEdge_oneEdge (A B : String) (hAB : A ≠ B) (k : Nat) :
    (oneEdge A B k).UpdateEdge A B = .ok (oneEdge A B (k + 1)) := by
  simp [ImportGraph.UpdateEdge, ImportGraph.AddNode,
    WeightedDirectedGraph.NewNode, WeightedDirectedGraph.AddNode, WeightedDirectedGraph.Node,
    WeightedDirectedGraph.WeightedEdge, WeightedDirectedGraph.NewWeightedEdge,
    WeightedDirectedGraph.SetWeightedEdge, mapGet, mapSet, hAB, oneEdge]

theorem repeatUpdate_oneEdge (A B : String) (hAB : A ≠ B) (k : Nat) : ∀ w : Nat,
    repeatUpdate A B k (oneEdge A B w) = .ok (oneEdge A B (w + k)) := by
  induction k with
  | zero => intro w; rfl
  | succ k ih =>
    intro w
    simp only [repeatUpdate, UpdateEdge_oneEdge A B hAB w]
    rw [ih (w + 1)]
    congr 2
    omega

/-- C1: for distinct labels `A`, `B` and `k ≥ 1`, `k` calls of
`UpdateEdge(A, B)` on a new graph complete and give the graph whose nodes are
exactly the node of `A` (id 0) and the node of `B` (id 1) and whose only edge
goes from the node of `A` to the node of `B` with weight `k`. -/
theorem C1_updateEdge_accumulates (A B : String) (hAB : A ≠ B) (k : Nat) (hk : 1 ≤ k) :
    ∃ g, repeatUpdate A B k NewImportGraph = .ok g ∧
      g.g.nodes = [0, 1] ∧ nodeLabels g = [A, B] ∧
      mapGet g.importToID A = some 0 ∧ mapGet g.importToID B = some 1 ∧
      g.g.edges = [((0, 1), k)] ∧ edgeWeight g A B = some k := by
  obtain ⟨n, rfl⟩ : ∃ n, k = n + 1 := ⟨k - 1, by omega⟩
  refine ⟨oneEdge A B (n + 1), ?_, ?_⟩
  · simp only [repeatUpdate, UpdateEdge_new_oneEdge A B hAB]
    rw [repeatUpdate_oneEdge A B hAB n 1]
    congr 2
    omega
  · simp [oneEdge, nodeLabels, edgeWeight, mapGet, hAB]

theorem C1_updateEdge_accumulates_witness :
    ("a" : String) ≠ "b" ∧ 1 ≤ 3 ∧
    ∃ g, repeatUpdate "a" "b" 3 NewImportGraph = .ok g ∧
      g.g.nodes = [0, 1] ∧ nodeLabels g = ["a", "b"] ∧
      mapGet g.importToID "a" = some 0 ∧ mapGet g.importToID "b" = some 1 ∧
      g.g.edges = [((0, 1), 3)] ∧ edgeWeight g "a" "b" = some 3 :=
  ⟨by decide, by decide, C1_updateEdge_accumulates "a" "b" (by decide) 3 (by decide)⟩

/-! ## Order independence -/

theorem mem_opsLabels (ops : List Op) (x : String) :
    x ∈ opsLabels ops ↔ ∃ op ∈ ops, x ∈ op.labels := by
  induction ops with
  | nil => simp [opsLabels]
  | cons op rest ih => simp [opsLabels, ih]

/-- C2: for a list of (source, target) pairs with source ≠ target and a
permutation of it, `UpdateEdge` over either list from a new graph completes,
and the two graphs have the same node labels and, for every ordered pair of
labels, the same edge weight (or no edge in both). -/
theorem C2_merge_order_independent (l l2 : List (String × String))
    (hd : ∀ p ∈ l, p.1 ≠ p.2) (hp : l.Perm l2) :
    ∃ g g2, updateEdges NewImportGraph l = .ok g ∧ updateEdges NewImportGraph l2 = .ok g2 ∧
      (∀ x, x ∈ nodeLabels g ↔ x ∈ nodeLabels g2) ∧
      (∀ a b, edgeWeight g a b = edgeWeight g2 a b) := by
  have hops : (l.map (fun p => Op.updateEdge p.1 p.2)).Perm
      (l2.map (fun p => Op.updateEdge p.1 p.2)) := hp.map _
  have hd1 : ∀ op ∈ l.map (fun p => Op.updateEdge p.1 p.2), op.distinct := by
    intro op hop
    obtain ⟨p, hpl, rfl⟩ := List.mem_map.1 hop
    exact hd p hpl
  have hd2 : ∀ op ∈ l2.map (fun p => Op.updateEdge p.1 p.2), op.distinct :=
    fun op hop => hd1 op (hops.symm.subset hop)
  obtain ⟨g, e, inv, -, lab, ew⟩ := run_ok _ Inv_new hd1
  obtain ⟨g2, e2, inv2, -, lab2, ew2⟩ := run_ok _ Inv_new hd2
  refine ⟨g, g2, e, e2, ?_, ?_⟩
  · intro x
    rw [mem_nodeLabels inv, mem_nodeLabels inv2, lab x, lab2 x, mem_opsLabels, mem_opsLabels]
    constructor
    · rintro (h | ⟨op, hop, hx⟩)
      · exact Or.inl h
      · exact Or.inr ⟨op, hops.subset hop, hx⟩
    · rintro (h | ⟨op, hop, hx⟩)
      · exact Or.inl h
      · exact Or.inr ⟨op, hops.symm.subset hop, hx⟩
  · intro a b
    rw [ew a b, ew2 a b, hops.count_eq]

theorem C2_merge_order_independent_witness :
    (∀ p ∈ [("a", "b"), ("b", "c"), ("a", "b")], p.1 ≠ p.2) ∧
    [("a", "b"), ("b", "c"), ("a", "b")].Perm [("b", "c"), ("a", "b"), ("a", "b")] ∧
    ∃ g g2, updateEdges NewImportGraph [("a", "b"), ("b", "c"), ("a", "b")] = .ok g ∧
      updateEdges NewImportGraph [("b", "c"), ("a", "b"), ("a", "b")] = .ok g2 ∧
      (∀ x, x ∈ nodeLabels g ↔ x ∈ nodeLabels g2) ∧
      (∀ a b, edgeWeight g a b = edgeWeight g2 a b) :=
  ⟨by decide, by decide,
    C2_merge_order_independent [("a", "b"), ("b", "c"), ("a", "b")]
      [("b", "c"), ("a", "b"), ("a", "b")] (by decide) (by decide)⟩

/-! ## Idempotence of `AddNode` and the bijection of the maps -/

/-- C3: on a graph reached from a new one by `AddNode` and `UpdateEdge` calls
with distinct endpoints, `AddNode(L)`, then any such calls, then `AddNode(L)`
again: every step completes, both `AddNode(L)` return the same node id, and
the second returns the graph it was given (nodes, edges and both maps). -/
theorem C3_addNode_idempotent (ops1 ops2 : List Op) (L : String)
    (hd1 : ∀ op ∈ ops1, op.distinct) (hd2 : ∀ op ∈ ops2, op.distinct) :
    ∃ g1 n g2 g3, run NewImportGraph ops1 = .ok g1 ∧
      g1.AddNode L = .ok (some n, g2) ∧
      run g2 ops2 = .ok g3 ∧
      g3.AddNode L = .ok (some n, g3) := by
  obtain ⟨g1, e1, inv1, -⟩ := run_ok ops1 Inv_new hd1
  obtain ⟨n, g2, e2, inv2, hn, -⟩ := AddNode_ok inv1 L
  obtain ⟨g3, e3, inv3, keep3, -⟩ := run_ok ops2 inv2 hd2
  exact ⟨g1, n, g2, g3, e1, e2, e3, AddNode_old inv3 (keep3 _ _ hn)⟩

theorem C3_addNode_idempotent_witness :
    (∀ op ∈ [Op.updateEdge "a" "b"], op.distinct) ∧
    (∀ op ∈ [Op.addNode "c", Op.updateEdge "c" "a"], op.distinct) ∧
    ∃ g1 n g2 g3, run NewImportGraph [Op.updateEdge "a" "b"] = .ok g1 ∧
      g1.AddNode "L" = .ok (some n, g2) ∧
      run g2 [Op.addNode "c", Op.updateEdge "c" "a"] = .ok g3 ∧
      g3.AddNode "L" = .ok (some n, g3) :=
  ⟨by decide, by decide,
    C3_addNode_idempotent [Op.updateEdge "a" "b"] [Op.addNode "c", Op.updateEdge "c" "a"] "L"
      (by decide) (by decide)⟩

/-- C4: a run of `AddNode` and `UpdateEdge` calls with distinct endpoints on a
new graph completes, and in the graph it gives `importToID` and `idToImport`
are inverse to each other, no two labels share an id, the ids they relate are
exactly the nodes of the underlying graph, no node is listed twice, and `Len`
is the number of distinct labels named by the calls. -/
theorem C4_maps_bijective (ops : List Op) (hd : ∀ op ∈ ops, op.distinct) :
    ∃ g, run NewImportGraph ops = .ok g ∧
      (∀ l i, mapGet g.importToID l = some i ↔ mapGet g.idToImport i = some l) ∧
      (∀ l1 l2 i, mapGet g.importToID l1 = some i → mapGet g.importToID l2 = some i → l1 = l2) ∧
      (∀ i, i ∈ g.g.nodes ↔ ∃ l, mapGet g.importToID l = some i) ∧
      g.g.nodes.Nodup ∧
      g.Len = (opsLabels ops).dedup.length := by
  obtain ⟨g, e, inv, -, lab, -⟩ := run_ok ops Inv_new hd
  refine ⟨g, e, inv.inverse, fun _ _ _ h1 h2 => inv.inj h1 h2, ?_, inv.nodes_nodup, ?_⟩
  · intro i
    constructor
    · intro hi
      rw [← inv.ids_eq] at hi
      obtain ⟨⟨l, j⟩, hm, rfl⟩ := List.mem_map.1 hi
      exact ⟨l, mapGet_of_mem _ _ _ inv.keys_nodup hm⟩
    · rintro ⟨l, hl⟩
      exact inv.id_mem hl
  · apply Len_eq inv
    intro x
    rw [lab x]
    simp [NewImportGraph, mapGet]

theorem C4_maps_bijective_witness :
    (∀ op ∈ [Op.updateEdge "a" "b", Op.addNode "a", Op.updateEdge "c" "a"], op.distinct) ∧
    ∃ g, run NewImportGraph [Op.updateEdge "a" "b", Op.addNode "a", Op.updateEdge "c" "a"]
        = .ok g ∧
      (∀ l i, mapGet g.importToID l = some i ↔ mapGet g.idToImport i = some l) ∧
      (∀ l1 l2 i, mapGet g.importToID l1 = some i → mapGet g.importToID l2 = some i → l1 = l2) ∧
      (∀ i, i ∈ g.g.nodes ↔ ∃ l, mapGet g.importToID l = some i) ∧
      g.g.nodes.Nodup ∧
      g.Len = (opsLabels [Op.updateEdge "a" "b", Op.addNode "a",
        Op.updateEdge "c" "a"]).dedup.length :=
  ⟨by decide,
    C4_maps_bijective [Op.updateEdge "a" "b", Op.addNode "a", Op.updateEdge "c" "a"]
      (by decide)⟩

/-! ## The order of the ranking -/

/-- C5: for a non-empty graph and any scores the ranking step assigns, the
scores `Centrality` returns are those scores in another order, and they are
non-increasing: the score at position `i` is at least the score at any later
position `j`. -/
theorem C5_centrality_descending {σ : Type} [LinearOrder σ]
    (pageRank : WeightedDirectedGraph → List (Int × σ)) (g : ImportGraph) (hne : g.Len ≠ 0) :
    ((g.Centrality pageRank).2).Perm ((pageRank g.g).map Prod.snd) ∧
      ∀ (i j : Nat) (a b : σ), i < j → (g.Centrality pageRank).2[i]? = some a →
        (g.Centrality pageRank).2[j]? = some b → b ≤ a := by
  have hsorted : ((g.Centrality pageRank).2).Pairwise (fun a b => b ≤ a) := by
    simp only [ImportGraph.Centrality, hne, if_false]
    rw [List.pairwise_map]
    exact sortSlice_sorted (fun s : sortable σ => s.score) _
  refine ⟨?_, ?_⟩
  · simp only [ImportGraph.Centrality, hne, if_false]
    refine ((sortSlice_perm _ _).map _).trans ?_
    rw [List.map_map]
    exact List.Perm.refl _
  · intro i j a b hij hi hj
    obtain ⟨hi1, rfl⟩ := List.getElem?_eq_some.1 hi
    obtain ⟨hj1, rfl⟩ := List.getElem?_eq_some.1 hj
    exact List.pairwise_iff_getElem.1 hsorted i j hi1 hj1 hij

theorem C5_centrality_descending_witness :
    (oneEdge "a" "b" 1).Len ≠ 0 ∧
    (((oneEdge "a" "b" 1).Centrality idRank).2).Perm
        ((idRank (oneEdge "a" "b" 1).g).map Prod.snd) ∧
      ∀ (i j : Nat) (a b : Int), i < j → ((oneEdge "a" "b" 1).Centrality idRank).2[i]? = some a →
        ((oneEdge "a" "b" 1).Centrality idRank).2[j]? = some b → b ≤ a :=
  ⟨by decide, C5_centrality_descending idRank (oneEdge "a" "b" 1) (by decide)⟩

/-! ## Failing tasks -/

/-- C6: for every package list and every Import Source that lists no package
among the imports collected for that package itself (`go list` reports such
an import cycle as an error), `BuildGraph` returns a graph and no error, and
the same graph is built from the non-failing packages alone; when the tasks
merge in another order the graph has the same labels and the same weights. A task
fails when its file listing fails or one of its import queries fails, and then
it leaves the graph as it was; every other task collects the imports of all
its targets, in target order, and merges them all. -/
theorem C6_failing_tasks_skipped (src : ImportSource) (pkgs : List String) (pre : String)
    (iterPkg : Bool)
    (hs : ∀ pkg ∈ pkgs, ∀ imps, taskImports src pre iterPkg pkg = some imps → pkg ∉ imps) :
    (∃ g, BuildGraph src pkgs pre iterPkg = .returned g none ∧
      BuildGraph src (pkgs.filter (fun p => (taskImports src pre iterPkg p).isSome))
        pre iterPkg = .returned g none ∧
      ∀ pkgs2, pkgs.Perm pkgs2 →
        ∃ g2, BuildGraph src pkgs2 pre iterPkg = .returned g2 none ∧
          (∀ x, x ∈ nodeLabels g ↔ x ∈ nodeLabels g2) ∧
          (∀ a b, edgeWeight g a b = edgeWeight g2 a b)) ∧
    (∀ g0 pkg, taskTargets src iterPkg pkg = none →
      buildTask src pre iterPkg g0 pkg = .ok g0) ∧
    (∀ g0 pkg targets, taskTargets src iterPkg pkg = some targets →
      (∃ t ∈ targets, src.ListImports t pre = none) →
      buildTask src pre iterPkg g0 pkg = .ok g0) ∧
    (∀ g0 pkg targets, taskTargets src iterPkg pkg = some targets →
      (∀ t ∈ targets, (src.ListImports t pre).isSome) →
      taskImports src pre iterPkg pkg =
        some ((targets.map (fun t => (src.ListImports t pre).getD [])).flatten) ∧
      buildTask src pre iterPkg g0 pkg =
        mergeImports g0 pkg
          ((targets.map (fun t => (src.ListImports t pre).getD [])).flatten)) := by
  refine ⟨?_, ?_, ?_, ?_⟩
  · obtain ⟨g, e, inv, -, lab, ew⟩ :=
      run_ok _ Inv_new (taskOps_distinct src pre iterPkg pkgs hs)
    have hb := buildTasks_of_run src pre iterPkg pkgs _ _ e
    refine ⟨g, by simp [BuildGraph, hb], by simp [BuildGraph, buildTasks_filter, hb], ?_⟩
    intro pkgs2 hp
    have hs2 : ∀ pkg ∈ pkgs2, ∀ imps, taskImports src pre iterPkg pkg = some imps →
        pkg ∉ imps := fun pkg hpkg => hs pkg (hp.symm.subset hpkg)
    have hops : (pkgs.flatMap (taskOps src pre iterPkg)).Perm
        (pkgs2.flatMap (taskOps src pre iterPkg)) := hp.flatMap_right _
    obtain ⟨g2, e2, inv2, -, lab2, ew2⟩ :=
      run_ok _ Inv_new (taskOps_distinct src pre iterPkg pkgs2 hs2)
    have hb2 := buildTasks_of_run src pre iterPkg pkgs2 _ _ e2
    refine ⟨g2, by simp [BuildGraph, hb2], ?_, ?_⟩
    · intro x
      rw [mem_nodeLabels inv, mem_nodeLabels inv2, lab x, lab2 x, mem_opsLabels, mem_opsLabels]
      constructor
      · rintro (h | ⟨op, hop, hx⟩)
        · exact Or.inl h
        · exact Or.inr ⟨op, hops.subset hop, hx⟩
      · rintro (h | ⟨op, hop, hx⟩)
        · exact Or.inl h
        · exact Or.inr ⟨op, hops.symm.subset hop, hx⟩
    · intro a b
      rw [ew a b, ew2 a b, hops.count_eq]
  · intro g0 pkg ht
    simp [buildTask, taskImports, ht]
  · intro g0 pkg targets ht hfail
    simp [buildTask, taskImports, ht, queryImports_none src pre targets [] hfail]
  · intro g0 pkg targets ht hall
    have hq := queryImports_some src pre targets [] hall
    simp only [List.nil_append] at hq
    simp [buildTask, taskImports, ht, hq]

theorem C6_failing_tasks_skipped_witness :
    (∀ pkg ∈ ["p", "bad", "q", "r"], ∀ imps,
      taskImports flakySource "" false pkg = some imps → pkg ∉ imps) ∧
    ((∃ g, BuildGraph flakySource ["p", "bad", "q", "r"] "" false = .returned g none ∧
      BuildGraph flakySource
        (["p", "bad", "q", "r"].filter (fun p => (taskImports flakySource "" false p).isSome))
        "" false = .returned g none ∧
      ∀ pkgs2, ["p", "bad", "q", "r"].Perm pkgs2 →
        ∃ g2, BuildGraph flakySource pkgs2 "" false = .returned g2 none ∧
          (∀ x, x ∈ nodeLabels g ↔ x ∈ nodeLabels g2) ∧
          (∀ a b, edgeWeight g a b = edgeWeight g2 a b)) ∧
    (∀ g0 pkg, taskTargets flakySource false pkg = none →
      buildTask flakySource "" false g0 pkg = .ok g0) ∧
    (∀ g0 pkg targets, taskTargets flakySource false pkg = some targets →
      (∃ t ∈ targets, flakySource.ListImports t "" = none) →
      buildTask flakySource "" false g0 pkg = .ok g0) ∧
    (∀ g0 pkg targets, taskTargets flakySource false pkg = some targets →
      (∀ t ∈ targets, (flakySource.ListImports t "").isSome) →
      taskImports flakySource "" false pkg =
        some ((targets.map (fun t => (flakySource.ListImports t "").getD [])).flatten) ∧
      buildTask flakySource "" false g0 pkg =
        mergeImports g0 pkg
          ((targets.map (fun t => (flakySource.ListImports t "").getD [])).flatten))) :=
  ⟨by decide,
    C6_failing_tasks_skipped flakySource ["p", "bad", "q", "r"] "" false (by decide)⟩

/-! ## A panic in a worker -/

/-- The panic path of `BuildGraph`, evaluated: when a merge loop reaches
`UpdateEdge(A, A)` the worker panics in `SetWeightedEdge`, the graph left
behind has the node of `A` and no edge, and `runRoot` can still print the line
of `A` before the process is gone. -/
theorem BuildGraph_crash_keeps_graph :
    BuildGraph selfImportSource ["A"] "" false =
        .crashed .selfEdge
          { g := { nodes := [0], edges := [], maxID := 0 },
            idToImport := [(0, "A")], importToID := [("A", 0)] } ∧
      runRoot (fun _ => .ok ["A"]) selfImportSource unitRank "A" defaultFlags =
        .crashed .selfEdge [(1, "A")] := by
  decide

/-! ## A package without imports -/

/-- C7, as stated, fails: for the package list `[A]` with every import query
returning no imports, the graph has 0 nodes, not 1, and `Centrality` returns
no label, not `[A]`. -/
theorem C7_counterexample :
    ∃ g, BuildGraph noImportSource ["A"] "" true = .returned g none ∧
      g.Len = 0 ∧ g.Len ≠ 1 ∧
      (g.Centrality unitRank).1 = [] ∧ (g.Centrality unitRank).1 ≠ ["A"] :=
  ⟨NewImportGraph, by decide, by decide, by decide, by decide, by decide⟩

/-- C7, amended: building the graph from the package list `[A]`, where
every import query for a target of `A` succeeds and returns no imports, yields
the graph with 0 nodes and 0 edges (nodes are created by `UpdateEdge` only),
and `Centrality` on that graph returns two empty sequences. -/
theorem C7_no_imports_empty_graph {σ : Type} [LinearOrder σ] (src : ImportSource)
    (A pre : String) (iterPkg : Bool) (pageRank : WeightedDirectedGraph → List (Int × σ))
    (h : ∀ targets, taskTargets src iterPkg A = some targets →
      ∀ t ∈ targets, src.ListImports t pre = some []) :
    ∃ g, BuildGraph src [A] pre iterPkg = .returned g none ∧
      g.Len = 0 ∧ g.g.nodes = [] ∧ g.g.edges = [] ∧ g.Centrality pageRank = ([], []) := by
  have hb : buildTask src pre iterPkg NewImportGraph A = .ok NewImportGraph := by
    unfold buildTask taskImports
    cases ht : taskTargets src iterPkg A with
    | none => rfl
    | some targets =>
      simp only [queryImports_nil src pre targets (h targets ht)]
      rfl
  refine ⟨NewImportGraph, by simp [BuildGraph, buildTasks, hb], rfl, rfl, rfl, ?_⟩
  simp [ImportGraph.Centrality, ImportGraph.Len, NewImportGraph, NewWeightedDirectedGraph]

theorem C7_no_imports_empty_graph_witness :
    (∀ targets, taskTargets mixedSource false "A" = some targets →
      ∀ t ∈ targets, mixedSource.ListImports t "" = some []) ∧
    mixedSource.ListImports "B/a.go" "" = some ["x"] ∧
    ∃ g, BuildGraph mixedSource ["A"] "" false = .returned g none ∧
      g.Len = 0 ∧ g.g.nodes = [] ∧ g.g.edges = [] ∧ g.Centrality unitRank = ([], []) :=
  ⟨by decide, by decide,
    C7_no_imports_empty_graph mixedSource "A" "" false unitRank (by decide)⟩

/-! ## Self-loops -/

/-- C8, as stated, fails: `UpdateEdge(A, A)` on a new graph panics in
`SetWeightedEdge` and returns no graph. -/
theorem C8_counterexample :
    NewImportGraph.UpdateEdge "A" "A" = .error .selfEdge ∧
      ¬ ∃ g, NewImportGraph.UpdateEdge "A" "A" = .ok g := by
  have h : NewImportGraph.UpdateEdge "A" "A" = .error .selfEdge := by decide
  refine ⟨h, ?_⟩
  rintro ⟨g, hg⟩
  rw [h] at hg
  cases hg

/-- C8, amended: self-loops are not permitted: on every graph reached from a
new one by `AddNode` and `UpdateEdge` calls, `UpdateEdge(A, A)` panics in
`SetWeightedEdge`, and the graph holds no edge from a node to itself. -/
theorem C8_self_loop_panics (ops : List Op) (g : ImportGraph)
    (hr : run NewImportGraph ops = .ok g) (A : String) :
    g.UpdateEdge A A = .error .selfEdge ∧ ∀ i, mapGet g.g.edges (i, i) = none := by
  obtain ⟨inv, -⟩ := run_inv ops Inv_new hr
  refine ⟨UpdateEdge_self inv A, ?_⟩
  intro i
  cases hm : mapGet g.g.edges (i, i) with
  | none => rfl
  | some w => exact absurd rfl (inv.edges_in i i w hm).2.2

theorem C8_self_loop_panics_witness :
    run NewImportGraph [Op.updateEdge "a" "b"] = .ok (oneEdge "a" "b" 1) ∧
    ((oneEdge "a" "b" 1).UpdateEdge "a" "a" = .error .selfEdge ∧
      ∀ i, mapGet (oneEdge "a" "b" 1).g.edges (i, i) = none) :=
  ⟨by decide, C8_self_loop_panics [Op.updateEdge "a" "b"] (oneEdge "a" "b" 1) (by decide) "a"⟩

/-! ## The result-count limit -/

/-- C9: what the code does with a non-positive limit: the print loop emits the
first entry of the ranking and stops, whatever the number of entries. -/
theorem C9_nonpositive_limit_prints_one {σ : Type} (num : Int) (hn : num ≤ 0) (s : σ)
    (scores : List σ) (imp : String) (rest : List String) :
    printLoop num (s :: scores) 0 (imp :: rest) = .ok [(s, imp)] := by
  cases rest with
  | nil => simp [printLoop]
  | cons imp2 rest2 =>
    have : (1 : Int) > num := by omega
    simp [printLoop, this]

theorem C9_nonpositive_limit_prints_one_witness :
    (0 : Int) ≤ 0 ∧
    printLoop 0 [(3 : Int), 2, 1] 0 ["a", "b", "c"] = .ok [(3, "a")] :=
  ⟨by decide, C9_nonpositive_limit_prints_one 0 (by decide) 3 [2, 1] "a" ["b", "c"]⟩

/-! ## The default granularity -/

/-- C10, as stated, fails: with the flag at its default the targets of the
package `p` are its two files, not `[p]`, and the task merges the import `x`
once per file, not once. -/
theorem C10_counterexample :
    taskTargets twoFileSource defaultFlags.pkg "p" = some ["p/a.go", "p/b.go"] ∧
      taskTargets twoFileSource defaultFlags.pkg "p" ≠ some ["p"] ∧
      twoFileSource.ListImports "p" "" = some ["x"] ∧
      buildTask twoFileSource "" defaultFlags.pkg NewImportGraph "p" ≠
        mergeImports NewImportGraph "p" ["x"] := by
  decide

/-- C10, amended: with the flag at its default (false) the targets of a
package are the Go files `ListGoFiles` gives for it; with the flag set the
target list is exactly `[p]`, and the task of `p` is one `UpdateEdge(p, i)` per
entry `i` of `ListImports(p, prefix)`, nothing when that query fails. -/
theorem C10_default_is_file_granularity (src : ImportSource) (pre p : String)
    (g : ImportGraph) :
    defaultFlags.pkg = false ∧
      taskTargets src defaultFlags.pkg p = src.ListGoFiles p ∧
      taskTargets src true p = some [p] ∧
      buildTask src pre true g p =
        (match src.ListImports p pre with
         | none => .ok g
         | some imps => mergeImports g p imps) := by
  refine ⟨rfl, rfl, rfl, ?_⟩
  simp only [buildTask, taskImports, taskTargets, if_true, queryImports]
  cases src.ListImports p pre with
  | none => rfl
  | some imps => simp [queryImports]

end PkgRank
